import Mathlib

/-!
Shallow embedding of the core of `nickel_file_renamer.py`: the
tree/selection synchronization, the asynchronous suggestion pipeline,
the suggestion table (reject flow), and the rename applier.
Each definition mirrors one function of the source file; theorems at the
end settle the specification claims.
-/

namespace NickelRenamer

/-! ### Path helpers (mirroring `os.path.basename`, `os.path.dirname`, `os.path.join`) -/

/-- First index of a character in a list, `List.findIdx?`. -/
def firstIdxOf (c : Char) (cs : List Char) : Option Nat :=
  cs.findIdx? (fun x => x == c)

/-- Last index of a character in a list. -/
def lastIdxOf (c : Char) (cs : List Char) : Option Nat :=
  match cs.reverse.findIdx? (fun x => x == c) with
  | some k => some (cs.length - 1 - k)
  | none => none

/-- Mirrors `os.path.basename`: the part of the path after the last slash. -/
def basename (p : String) : String :=
  String.mk ((p.toList.reverse.takeWhile (fun c => !(c == '/'))).reverse)

/-- Mirrors `os.path.dirname`: the part before the last slash, with trailing slashes
stripped unless the head is all slashes (posixpath semantics). -/
def dirname (p : String) : String :=
  let cs := p.toList
  let i := match lastIdxOf '/' cs with
           | some k => k + 1
           | none => 0
  let head := cs.take i
  if head.isEmpty || head.all (fun c => c == '/') then String.mk head
  else String.mk ((head.reverse.dropWhile (fun c => c == '/')).reverse)

/-- Does the string start with the given character? -/
def headIs (c : Char) (s : String) : Bool :=
  match s.toList with
  | [] => false
  | x :: _ => x == c

/-- Does the string end with the given character? -/
def lastIs (c : Char) (s : String) : Bool :=
  match s.toList.reverse with
  | [] => false
  | x :: _ => x == c

/-- Mirrors `os.path.join(a, b)` for a single join (posixpath semantics). -/
def joinPath (a b : String) : String :=
  if headIs '/' b then b
  else if a == "" || lastIs '/' a then a ++ b
  else a ++ "/" ++ b

/-- Python's `str.strip()`: whitespace removed from both ends. -/
def pyStrip (s : String) : String :=
  String.mk (((s.toList.dropWhile Char.isWhitespace).reverse.dropWhile Char.isWhitespace).reverse)

/-! ### PathTree / SelectionSet model

A materialized tree node carries its absolute path, its kind and the
checkbox state of the `Selected` column.  The selection is the ordered
list `self.selected_items : List[Tuple[str, bool]]` of `(path, is_folder)`
pairs. -/

/-- One materialized node of the directory tree widget. -/
structure Node where
  path : String
  isFolder : Bool
  checked : Bool
deriving DecidableEq, Repr

/-- Mirrors `any(item[0] == p for item in selected_items)`: membership by path. -/
def anyPath (sel : List (String × Bool)) (p : String) : Bool :=
  sel.any (fun e => e.1 == p)

/-- Remove the first selection entry with the given path
(`remove_tree_item_from_selection`). -/
def removeFirstPath (sel : List (String × Bool)) (p : String) : List (String × Bool) :=
  match sel with
  | [] => []
  | e :: rest => if e.1 == p then rest else e :: removeFirstPath rest p

/-- Append a selection entry unless its path is already present
(`add_tree_item_to_selection`). -/
def addIfAbsent (sel : List (String × Bool)) (x : String × Bool) : List (String × Bool) :=
  if anyPath sel x.1 then sel else sel ++ [x]

/-- Set the checkbox column of the node with the given path
(`self.dir_tree.set(item_id, "Selected", ...)`). -/
def setChecked (tree : List Node) (p : String) (b : Bool) : List Node :=
  tree.map (fun n => if n.path == p then { n with checked := b } else n)

/-- Look up the materialized node for a path. -/
def findNode (tree : List Node) (p : String) : Option Node :=
  tree.find? (fun n => n.path == p)

/-- The checkbox state shown for a path (unchecked if not materialized). -/
def checkedOf (tree : List Node) (p : String) : Bool :=
  match findNode tree p with
  | some n => n.checked
  | none => false

/-- Combined tree + selection state. -/
structure TreeSel where
  tree : List Node
  sel : List (String × Bool)
deriving Repr

/-- Mirrors `on_tree_checkbox_click`: flip the clicked node's checkbox; on check add
the entry to the selection, on uncheck remove it.  A click can only land on
a materialized row, so an unknown path is a no-op. -/
def toggleCheck (s : TreeSel) (p : String) : TreeSel :=
  match findNode s.tree p with
  | none => s
  | some n =>
    if n.checked then
      { tree := setChecked s.tree p false, sel := removeFirstPath s.sel p }
    else
      { tree := setChecked s.tree p true, sel := addIfAbsent s.sel (p, n.isFolder) }

/-- One step of `select_tree_item_contents`: a directory-listing child
`(name, is_folder)` of `dir` is added to the selection unless present, and
its checkbox is marked if the node is materialized. -/
def selectContentsStep (dir : String) (s : TreeSel) (child : String × Bool) : TreeSel :=
  let cp := joinPath dir child.1
  if anyPath s.sel cp then s
  else { tree := setChecked s.tree cp true, sel := s.sel ++ [(cp, child.2)] }

/-- Mirrors `select_tree_item_contents`: fold over the folder's directory listing. -/
def selectContents (s : TreeSel) (dir : String) (children : List (String × Bool)) : TreeSel :=
  children.foldl (selectContentsStep dir) s

/-- Mirrors `clear_selection`: empty the selection and uncheck every materialized node
(`update_all_dir_tree_checkboxes(False)`). -/
def clearTreeSel (s : TreeSel) : TreeSel :=
  { tree := s.tree.map (fun n => { n with checked := false }), sel := [] }

/-- Mirrors `populate_directory_subtree` on expansion: new nodes are materialized with
their checkbox derived from current selection membership. -/
def materialize (s : TreeSel) (entries : List (String × Bool)) : TreeSel :=
  { s with tree := s.tree ++ entries.map (fun e => ⟨e.1, e.2, anyPath s.sel e.1⟩) }

/-- The user-visible operations of the browsing model. -/
inductive TreeOp where
  | toggle (p : String)
  | selContents (dir : String) (children : List (String × Bool))
  | clear
  | expand (entries : List (String × Bool))

/-- Apply one operation. -/
def applyTreeOp (s : TreeSel) : TreeOp → TreeSel
  | .toggle p => toggleCheck s p
  | .selContents dir children => selectContents s dir children
  | .clear => clearTreeSel s
  | .expand entries => materialize s entries

/-- Apply a sequence of operations. -/
def applyTreeOps (s : TreeSel) (ops : List TreeOp) : TreeSel :=
  ops.foldl applyTreeOp s

/-- The synchronization invariant: every materialized node's checkbox mirrors
selection membership of its path. -/
def TreeInv (s : TreeSel) : Prop :=
  ∀ n ∈ s.tree, n.checked = anyPath s.sel n.path

/-- Selection paths are duplicate-free (the `add` guard maintains this). -/
def SelNodup (s : TreeSel) : Prop :=
  (s.sel.map Prod.fst).Nodup

/-! ### Suggestion pipeline state machine

`get_ai_suggestions` disables the trigger button and starts a worker
thread; `_check_ai_thread` polls the single-slot queue every 100ms and,
once an outcome is drained, re-enables the trigger and stops polling. -/

/-- Observable pipeline state: whether a request is outstanding, whether the
trigger button is enabled, whether the worker has deposited its outcome in the
queue, and running counts of issued requests and drained outcomes. -/
structure PState where
  issued : Bool
  enabled : Bool
  deposited : Bool
  issues : Nat
  drains : Nat
deriving DecidableEq, Repr

/-- Pipeline events: a click on the suggestions trigger (with the emptiness of
the selection at that moment), the worker depositing its single outcome, and
one firing of the scheduled poll. -/
inductive PEv where
  | issueClick (selNonempty : Bool)
  | deposit
  | poll

/-- One step of the pipeline.  `none` means the event cannot occur in this
state: a disabled button generates no click, a worker exists and deposits only
once per request, and the poll chain runs only while a request is outstanding. -/
def pstep (s : PState) : PEv → Option PState
  | .issueClick ne =>
    if s.enabled then
      if ne then
        some { issued := true, enabled := false, deposited := false,
               issues := s.issues + 1, drains := s.drains }
      else some s
    else none
  | .deposit =>
    if s.issued && !s.deposited then some { s with deposited := true } else none
  | .poll =>
    if s.issued then
      if s.deposited then
        some { issued := false, enabled := true, deposited := false,
               issues := s.issues, drains := s.drains + 1 }
      else some s
    else none

/-- The initial pipeline state: idle, trigger enabled. -/
def pinit : PState :=
  ⟨false, true, false, 0, 0⟩

/-- Reachability of pipeline states from `pinit` by legal events. -/
inductive PReachable : PState → Prop where
  | init : PReachable pinit
  | step {s s' : PState} {e : PEv} : PReachable s → pstep s e = some s' → PReachable s'

/-! ### The worker request (`_run_ai_request_thread`) -/

/-- Extraction performed by `re.search(r'({.*})', text, re.DOTALL)`: the greedy
match runs from the first opening brace to the last closing brace after it. -/
def extractJson (text : String) : Option String :=
  let cs := text.toList
  match firstIdxOf '{' cs, lastIdxOf '}' cs with
  | some i, some j =>
    if i < j then some (String.mk ((cs.drop i).take (j - i + 1))) else none
  | _, _ => none

/-- Modelled from the spec: scan for the first balanced-looking
brace-delimited substring (depth counting from the first opening brace).
A comparison definition for the extraction claim only. -/
def takeBalanced : List Char → Nat → List Char → Option (List Char)
  | [], _, _ => none
  | c :: rest, depth, acc =>
    if c == '{' then takeBalanced rest (depth + 1) (acc ++ [c])
    else if c == '}' then
      if depth == 1 then some (acc ++ [c])
      else takeBalanced rest (depth - 1) (acc ++ [c])
    else takeBalanced rest depth (acc ++ [c])

/-- Modelled from the spec: the first balanced-looking brace substring of the
text, starting at the first opening brace. -/
def firstBalancedSub (text : String) : Option String :=
  let cs := text.toList
  match firstIdxOf '{' cs with
  | some i => (takeBalanced (cs.drop i) 0 []).map String.mk
  | none => none

/-- Mirrors `if not suggestions_text.strip().startswith('{')`: the payload handed to
`json.loads` is the raw content if its stripped form begins with a brace,
otherwise the greedy brace extraction. -/
def selectPayload (content : String) : Option String :=
  if headIs '{' (pyStrip content) then some content
  else extractJson content

/-- The error message built for a non-200 status: the status line, plus the
service's own error message when the error body parses as JSON (with
`'Unknown error'` when the parsed body lacks one).  `errInfo = none` models a
body that fails to parse; `some none` a JSON body without an error message. -/
def apiErrorMessage (status : Nat) (errInfo : Option (Option String)) : String :=
  "API Error: Status " ++ toString status ++
    (match errInfo with
     | none => ""
     | some none => "\n" ++ "Unknown error"
     | some (some m) => "\n" ++ m)

/-- Outcome of the blocking HTTP call, as seen by the worker. -/
inductive SvcResult where
  | netError (msg : String)
  | httpResponse (status : Nat) (errInfo : Option (Option String)) (content : String)

/-- Mirrors `_run_ai_request_thread`: the value deposited in the queue, abstracting
`json.loads` of the final payload as the oracle `jparse` (`Except.error` being
a raised `JSONDecodeError`'s message). -/
def runAiRequest (jparse : String → Except String (List (String × String))) :
    SvcResult → Except String (List (String × String))
  | .netError m => .error m
  | .httpResponse status errInfo content =>
    if status ≠ 200 then .error (apiErrorMessage status errInfo)
    else
      match selectPayload content with
      | none => .error "AI response did not contain a valid JSON object."
      | some t => jparse t

/-! ### Session state: selection, suggestion table, suggestion map -/

/-- One row of the results treeview: original name, suggested name and the
kind tag (`"File"` or `"Folder"`). -/
structure Row where
  orig : String
  sugg : String
  kind : String
deriving DecidableEq, Repr

/-- Lookup in a string-keyed association list (a Python dict). -/
def lookupKey (m : List (String × String)) (k : String) : Option String :=
  (m.find? (fun e => e.1 == k)).map (fun e => e.2)

/-- Membership test `k in m` for a Python dict. -/
def containsKey (m : List (String × String)) (k : String) : Bool :=
  m.any (fun e => e.1 == k)

/-- Python dict assignment `m[k] = v`: update in place if present, else append. -/
def upsertKey (m : List (String × String)) (k v : String) : List (String × String) :=
  if containsKey m k then m.map (fun e => if e.1 == k then (e.1, v) else e)
  else m ++ [(k, v)]

/-- Python `del m[k]`. -/
def removeKey (m : List (String × String)) (k : String) : List (String × String) :=
  m.filter (fun e => !(e.1 == k))

/-- Delete the first table row whose original name is `k` (the
delete-then-break loop in `_check_ai_thread`). -/
def eraseFirstRowKey (t : List Row) (k : String) : List Row :=
  match t with
  | [] => []
  | r :: rest => if r.orig == k then rest else r :: eraseFirstRowKey rest k

/-- Delete the first table row equal to `r` (deletion by widget id in
`reject_selected_suggestions`). -/
def eraseFirstEq (t : List Row) (r : Row) : List Row :=
  match t with
  | [] => []
  | x :: rest => if x == r then rest else x :: eraseFirstEq rest r

/-- The mutable session state touched by the pipeline, the table and the
applier: materialized tree nodes, `selected_items`, the results table and
`rename_suggestions`. -/
structure AppState where
  tree : List Node
  sel : List (String × Bool)
  table : List Row
  sugg : List (String × String)
deriving Repr

/-- Mirrors `clear_selection` at the session level. -/
def clearSelection (s : AppState) : AppState :=
  { s with sel := [], tree := s.tree.map (fun n => { n with checked := false }) }

/-- One iteration of the success loop of `_check_ai_thread`: if the entry's
basename is a key of the returned mapping, upsert the suggestion and replace
the table row (delete the first row with that original name, insert at end). -/
def processRow (result : List (String × String)) (s : AppState) (e : String × Bool) :
    AppState :=
  let orig := basename e.1
  match lookupKey result orig with
  | none => s
  | some v =>
    { s with sugg := upsertKey s.sugg orig v,
             table := eraseFirstRowKey s.table orig ++
               [⟨orig, v, if e.2 then "Folder" else "File"⟩] }

/-- The success branch of `_check_ai_thread`: fold the loop over
`selected_items`, then `clear_selection()`. -/
def processSuccessR (s : AppState) (result : List (String × String)) : AppState :=
  clearSelection (s.sel.foldl (processRow result) s)

/-- Mirrors `_check_ai_thread` once an outcome is drained: an exception is surfaced in
an error popup with the state untouched; a mapping is merged and the selection
cleared.  The second component is the popup text, if any. -/
def checkAiOutcome (s : AppState) :
    Except String (List (String × String)) → AppState × Option String
  | .error e => (s, some ("Failed to get AI suggestions: " ++ e))
  | .ok result => (processSuccessR s result, none)

/-- One iteration of `reject_selected_suggestions` for one selected row.
Mirrors the source: the path search runs over `selected_items` itself, the
re-add is guarded by absence from `selected_items`, and the row plus its
suggestion entry are removed when the original name has a suggestion. -/
def rejectRow (s : AppState) (r : Row) : AppState :=
  if containsKey s.sugg r.orig then
    let s1 :=
      match s.sel.find? (fun e => basename e.1 == r.orig) with
      | some e =>
        if anyPath s.sel e.1 then s
        else { s with sel := s.sel ++ [(e.1, e.2)], tree := setChecked s.tree e.1 true }
      | none => s
    { s1 with table := eraseFirstEq s1.table r, sugg := removeKey s1.sugg r.orig }
  else s

/-- Mirrors `reject_selected_suggestions` over the list of selected rows. -/
def rejectRows (s : AppState) (rows : List Row) : AppState :=
  rows.foldl rejectRow s

/-! ### Rename applier (`apply_renames`) -/

/-- Accumulator of the apply loop: the evolving `selected_items`, the two
counters, the filesystem rename calls actually performed (source and
destination), and the per-row error popups shown. -/
structure ApplyAcc where
  sel : List (String × Bool)
  renamed : Nat
  failed : Nat
  calls : List (String × String)
  popups : List String
deriving DecidableEq, Repr

/-- Replace the first selection entry equal to `old` with `new`
(`selected_items[idx] = ...` after `.index(...)`). -/
def replaceFirstEntry (sel : List (String × Bool)) (old new : String × Bool) :
    List (String × Bool) :=
  match sel with
  | [] => []
  | x :: rest => if x == old then new :: rest else x :: replaceFirstEntry rest old new

/-- One iteration of the apply loop for one row, with the filesystem rename
modelled by the oracle `fs src dst` (`none` = success, `some msg` = the
exception message).  Rows whose names are equal are skipped; rows whose
original name resolves to no current selection entry are skipped silently. -/
def applyRow (fs : String → String → Option String) (acc : ApplyAcc) (r : Row) :
    ApplyAcc :=
  if r.orig == r.sugg then acc
  else
    match acc.sel.find? (fun e => basename e.1 == r.orig) with
    | none => acc
    | some e =>
      let np := joinPath (dirname e.1) r.sugg
      match fs e.1 np with
      | none =>
        { acc with renamed := acc.renamed + 1,
                   calls := acc.calls ++ [(e.1, np)],
                   sel := replaceFirstEntry acc.sel e (np, e.2) }
      | some err =>
        { acc with failed := acc.failed + 1,
                   calls := acc.calls ++ [(e.1, np)],
                   popups := acc.popups ++ ["Failed to rename " ++ r.orig ++ ": " ++ err] }

/-- The end-of-batch report: either the success summary with its counts, or
the distinct `"No items needed renaming."` outcome. -/
inductive Summary where
  | success (renamed failed : Nat)
  | nothingToDo
deriving DecidableEq, Repr

/-- Mirrors `apply_renames`: early return when no rows are selected, otherwise the
fold over the selected rows followed by the summary logic (`renamed > 0`
shows the success box, else `error == 0` shows the nothing-to-do box, else
nothing). -/
def applyRenames (fs : String → String → Option String) (sel : List (String × Bool))
    (rows : List Row) : ApplyAcc × Option Summary :=
  if rows.isEmpty then (⟨sel, 0, 0, [], []⟩, none)
  else
    let acc := rows.foldl (applyRow fs) ⟨sel, 0, 0, [], []⟩
    (acc,
      if acc.renamed > 0 then some (.success acc.renamed acc.failed)
      else if acc.failed == 0 then some .nothingToDo
      else none)

/-! ## Theorems -/

/-! ### Selection-list lemmas -/

theorem anyPath_cons (e : String × Bool) (sel : List (String × Bool)) (p : String) :
    anyPath (e :: sel) p = ((e.1 == p) || anyPath sel p) := by
  simp [anyPath]

theorem anyPath_append (sel₁ sel₂ : List (String × Bool)) (p : String) :
    anyPath (sel₁ ++ sel₂) p = (anyPath sel₁ p || anyPath sel₂ p) := by
  simp [anyPath]

theorem anyPath_eq_true_iff (sel : List (String × Bool)) (p : String) :
    anyPath sel p = true ↔ p ∈ sel.map Prod.fst := by
  simp [anyPath]

theorem removeFirstPath_cons (e : String × Bool) (l : List (String × Bool)) (p : String) :
    removeFirstPath (e :: l) p = if e.1 == p then l else e :: removeFirstPath l p := rfl

theorem removeFirstPath_sublist (sel : List (String × Bool)) (p : String) :
    (removeFirstPath sel p).Sublist sel := by
  induction sel with
  | nil => simp [removeFirstPath]
  | cons e rest ih =>
    rw [removeFirstPath_cons]
    split
    · exact List.sublist_cons_self e rest
    · exact List.Sublist.cons₂ e ih

theorem anyPath_removeFirstPath_ne (sel : List (String × Bool)) (p q : String)
    (h : p ≠ q) : anyPath (removeFirstPath sel p) q = anyPath sel q := by
  induction sel with
  | nil => rfl
  | cons e rest ih =>
    rw [removeFirstPath_cons]
    split
    next heq =>
      have he : e.1 = p := beq_iff_eq.mp heq
      rw [anyPath_cons]
      have hq : (e.1 == q) = false := by
        rw [he]; exact beq_eq_false_iff_ne.mpr h
      rw [hq, Bool.false_or]
    next => rw [anyPath_cons, anyPath_cons, ih]

theorem anyPath_removeFirstPath_self (sel : List (String × Bool)) (p : String)
    (h : (sel.map Prod.fst).Nodup) : anyPath (removeFirstPath sel p) p = false := by
  induction sel with
  | nil => rfl
  | cons e rest ih =>
    rw [List.map_cons, List.nodup_cons] at h
    rw [removeFirstPath_cons]
    split
    next heq =>
      have he : e.1 = p := beq_iff_eq.mp heq
      rw [← he]
      cases hr : anyPath rest e.1 with
      | false => rfl
      | true => exact absurd ((anyPath_eq_true_iff rest e.1).mp hr) h.1
    next heq =>
      have hne : (e.1 == p) = false := by
        cases hb : (e.1 == p) with
        | false => rfl
        | true => exact absurd hb heq
      rw [anyPath_cons, hne, Bool.false_or]
      exact ih h.2

theorem removeFirstPath_nodup (sel : List (String × Bool)) (p : String)
    (h : (sel.map Prod.fst).Nodup) : ((removeFirstPath sel p).map Prod.fst).Nodup :=
  List.Nodup.sublist (List.Sublist.map Prod.fst (removeFirstPath_sublist sel p)) h

theorem removeFirstPath_append_absent (sel : List (String × Bool)) (p : String)
    (f : Bool) (h : anyPath sel p = false) :
    removeFirstPath (sel ++ [(p, f)]) p = sel := by
  induction sel with
  | nil => simp [removeFirstPath]
  | cons e rest ih =>
    rw [anyPath_cons, Bool.or_eq_false_iff] at h
    rw [List.cons_append, removeFirstPath_cons, h.1]
    simp only [Bool.false_eq_true, if_false]
    rw [ih h.2]

theorem addIfAbsent_of_absent (sel : List (String × Bool)) (x : String × Bool)
    (h : anyPath sel x.1 = false) : addIfAbsent sel x = sel ++ [x] := by
  simp [addIfAbsent, h]

theorem addIfAbsent_of_present (sel : List (String × Bool)) (x : String × Bool)
    (h : anyPath sel x.1 = true) : addIfAbsent sel x = sel := by
  simp [addIfAbsent, h]

/-! ### Tree lemmas -/

theorem setChecked_cons (m : Node) (rest : List Node) (p : String) (b : Bool) :
    setChecked (m :: rest) p b
      = (if m.path == p then { m with checked := b } else m) :: setChecked rest p b := rfl

theorem findNode_cons (x : Node) (l : List Node) (p : String) :
    findNode (x :: l) p = if x.path == p then some x else findNode l p := by
  cases h : (x.path == p) <;> simp [findNode, List.find?_cons, h]

theorem findNode_setChecked (tree : List Node) (p : String) (b : Bool) :
    findNode (setChecked tree p b) p
      = (findNode tree p).map (fun n => { n with checked := b }) := by
  induction tree with
  | nil => rfl
  | cons m rest ih =>
    cases hmp : (m.path == p) with
    | true => simp [setChecked_cons, findNode_cons, hmp, ih]
    | false => simp [setChecked_cons, findNode_cons, hmp, ih]

theorem checked_of_mem_setChecked (tree : List Node) (p : String) (b : Bool)
    (n : Node) (h : n ∈ setChecked tree p b) (hp : n.path = p) : n.checked = b := by
  rcases List.mem_map.mp h with ⟨m, _, heq⟩
  by_cases hmp : m.path = p
  · rw [← heq]
    simp [beq_iff_eq.mpr hmp]
  · have hb : (m.path == p) = false := beq_eq_false_iff_ne.mpr hmp
    rw [← heq] at hp
    simp only [hb, Bool.false_eq_true, if_false] at hp
    exact absurd hp hmp

theorem findNode_some_path (tree : List Node) (p : String) (n : Node)
    (h : findNode tree p = some n) : n.path = p := by
  unfold findNode at h
  exact beq_iff_eq.mp (@List.find?_some Node (fun n => n.path == p) n tree h)

theorem findNode_some_mem (tree : List Node) (p : String) (n : Node)
    (h : findNode tree p = some n) : n ∈ tree := by
  unfold findNode at h
  exact List.mem_of_find?_eq_some h

theorem toggleCheck_of_notfound (s : TreeSel) (p : String)
    (hf : findNode s.tree p = none) : toggleCheck s p = s := by
  unfold toggleCheck
  rw [hf]

theorem toggleCheck_of_found (s : TreeSel) (p : String) (n : Node)
    (hf : findNode s.tree p = some n) :
    toggleCheck s p
      = if n.checked then
          ⟨setChecked s.tree p false, removeFirstPath s.sel p⟩
        else
          ⟨setChecked s.tree p true, addIfAbsent s.sel (p, n.isFolder)⟩ := by
  unfold toggleCheck
  rw [hf]

/-! ### Invariant preservation (claim C4) -/

theorem append_entry_nodup (sel : List (String × Bool)) (p : String) (f : Bool)
    (h1 : (sel.map Prod.fst).Nodup) (h2 : anyPath sel p = false) :
    ((sel ++ [(p, f)]).map Prod.fst).Nodup := by
  rw [List.map_append, List.nodup_append]
  refine ⟨h1, List.nodup_singleton p, ?_⟩
  intro q hq hq'
  rw [List.map_cons, List.map_nil, List.mem_singleton] at hq'
  subst hq'
  have := (anyPath_eq_true_iff sel q).mpr hq
  rw [h2] at this
  exact Bool.false_ne_true this

theorem treeInv_append_entry (s : TreeSel) (p : String) (f : Bool)
    (h2 : TreeInv s) (_hsel : anyPath s.sel p = false) :
    TreeInv ⟨setChecked s.tree p true, s.sel ++ [(p, f)]⟩ := by
  intro n' hn'
  rcases List.mem_map.mp hn' with ⟨m, hm, heq⟩
  by_cases hmp : m.path = p
  · rw [← heq]
    simp only [beq_iff_eq.mpr hmp, if_true]
    rw [anyPath_append, anyPath_cons, hmp]
    simp
  · have hb : (m.path == p) = false := beq_eq_false_iff_ne.mpr hmp
    rw [← heq]
    simp only [hb, Bool.false_eq_true, if_false]
    rw [anyPath_append, anyPath_cons]
    have hpq : (p == m.path) = false := beq_eq_false_iff_ne.mpr (fun hh => hmp hh.symm)
    simp only [hpq, anyPath, List.any_nil, Bool.false_or, Bool.or_false]
    exact h2 m hm

theorem toggle_preserves_inv (s : TreeSel) (p : String)
    (h1 : SelNodup s) (h2 : TreeInv s) :
    SelNodup (toggleCheck s p) ∧ TreeInv (toggleCheck s p) := by
  cases hf : findNode s.tree p with
  | none =>
    rw [toggleCheck_of_notfound s p hf]
    exact ⟨h1, h2⟩
  | some n =>
    have hnp : n.path = p := findNode_some_path s.tree p n hf
    have hmem : n ∈ s.tree := findNode_some_mem s.tree p n hf
    rw [toggleCheck_of_found s p n hf]
    by_cases hc : n.checked = true
    · rw [if_pos hc]
      refine ⟨removeFirstPath_nodup s.sel p h1, ?_⟩
      intro n' hn'
      rcases List.mem_map.mp hn' with ⟨m, hm, heq⟩
      by_cases hmp : m.path = p
      · rw [← heq]
        simp only [beq_iff_eq.mpr hmp, if_true]
        rw [hmp]
        exact (anyPath_removeFirstPath_self s.sel p h1).symm
      · have hb : (m.path == p) = false := beq_eq_false_iff_ne.mpr hmp
        rw [← heq]
        simp only [hb, Bool.false_eq_true, if_false]
        rw [anyPath_removeFirstPath_ne s.sel p m.path (fun hh => hmp hh.symm)]
        exact h2 m hm
    · rw [if_neg hc]
      rw [Bool.not_eq_true] at hc
      have hsel : anyPath s.sel p = false := by
        have hx := h2 n hmem
        rw [hc, hnp] at hx
        exact hx.symm
      rw [addIfAbsent_of_absent s.sel (p, n.isFolder) hsel]
      exact ⟨append_entry_nodup s.sel p n.isFolder h1 hsel,
             treeInv_append_entry s p n.isFolder h2 hsel⟩

theorem selectContentsStep_preserves_inv (dir : String) (s : TreeSel)
    (child : String × Bool) (h1 : SelNodup s) (h2 : TreeInv s) :
    SelNodup (selectContentsStep dir s child) ∧ TreeInv (selectContentsStep dir s child) := by
  by_cases hsel : anyPath s.sel (joinPath dir child.1) = true
  · have hs : selectContentsStep dir s child = s := by
      unfold selectContentsStep
      simp [hsel]
    rw [hs]
    exact ⟨h1, h2⟩
  · rw [Bool.not_eq_true] at hsel
    have hs : selectContentsStep dir s child
        = ⟨setChecked s.tree (joinPath dir child.1) true,
           s.sel ++ [(joinPath dir child.1, child.2)]⟩ := by
      unfold selectContentsStep
      simp [hsel]
    rw [hs]
    exact ⟨append_entry_nodup s.sel (joinPath dir child.1) child.2 h1 hsel,
           treeInv_append_entry s (joinPath dir child.1) child.2 h2 hsel⟩

theorem selectContents_preserves_inv (s : TreeSel) (dir : String)
    (children : List (String × Bool)) (h1 : SelNodup s) (h2 : TreeInv s) :
    SelNodup (selectContents s dir children) ∧ TreeInv (selectContents s dir children) := by
  unfold selectContents
  induction children generalizing s with
  | nil => exact ⟨h1, h2⟩
  | cons c rest ih =>
    rw [List.foldl_cons]
    have step := selectContentsStep_preserves_inv dir s c h1 h2
    exact ih (selectContentsStep dir s c) step.1 step.2

theorem clearTreeSel_preserves_inv (s : TreeSel) :
    SelNodup (clearTreeSel s) ∧ TreeInv (clearTreeSel s) := by
  constructor
  · exact List.nodup_nil
  · intro n hn
    rcases List.mem_map.mp hn with ⟨m, _, heq⟩
    rw [← heq]
    rfl

theorem materialize_preserves_inv (s : TreeSel) (entries : List (String × Bool))
    (h1 : SelNodup s) (h2 : TreeInv s) :
    SelNodup (materialize s entries) ∧ TreeInv (materialize s entries) := by
  refine ⟨h1, ?_⟩
  intro n hn
  rcases List.mem_append.mp hn with hl | hr
  · exact h2 n hl
  · rcases List.mem_map.mp hr with ⟨e, _, heq⟩
    rw [← heq]
    rfl

theorem applyTreeOp_preserves_inv (s : TreeSel) (op : TreeOp)
    (h1 : SelNodup s) (h2 : TreeInv s) :
    SelNodup (applyTreeOp s op) ∧ TreeInv (applyTreeOp s op) := by
  cases op with
  | toggle p => exact toggle_preserves_inv s p h1 h2
  | selContents dir children => exact selectContents_preserves_inv s dir children h1 h2
  | clear => exact clearTreeSel_preserves_inv s
  | expand entries => exact materialize_preserves_inv s entries h1 h2

/-- Claim C4: for every materialized tree node, after any sequence of
toggle-check, select-contents, clear-selection (and lazy-expansion)
operations, the node's checkbox is checked exactly when its path has an
entry in the selection set. -/
theorem c4_checked_iff_selected (s : TreeSel) (ops : List TreeOp)
    (h1 : SelNodup s) (h2 : TreeInv s) :
    ∀ n ∈ (applyTreeOps s ops).tree,
      n.checked = anyPath (applyTreeOps s ops).sel n.path := by
  unfold applyTreeOps
  induction ops generalizing s with
  | nil => exact h2
  | cons op rest ih =>
    rw [List.foldl_cons]
    have step := applyTreeOp_preserves_inv s op h1 h2
    exact ih (applyTreeOp s op) step.1 step.2

/-- Witness for C4: starting from the empty session, expanding one entry and
toggling it leaves the node checked, which the theorem equates with its
selection membership. -/
theorem c4_checked_iff_selected_witness :
    (⟨"/r/a.txt", false, true⟩ : Node).checked
      = anyPath (applyTreeOps ⟨[], []⟩
          [TreeOp.expand [("/r/a.txt", false)], TreeOp.toggle "/r/a.txt"]).sel
          "/r/a.txt" :=
  c4_checked_iff_selected ⟨[], []⟩
    [TreeOp.expand [("/r/a.txt", false)], TreeOp.toggle "/r/a.txt"]
    List.nodup_nil (fun n hn => absurd hn (List.not_mem_nil n))
    ⟨"/r/a.txt", false, true⟩ (by decide)

/-! ### Toggle involution (claim C9) -/

/-- Claim C9: toggling a node's check state twice returns the selection set to
exactly its prior membership; and from an unselected state, the add-then-remove
round trip leaves the path unselected and its materialized node unchecked.
The hypothesis is the C4 synchronization invariant at the toggled node. -/
theorem c9_toggle_twice_membership (s : TreeSel) (p : String)
    (h : checkedOf s.tree p = anyPath s.sel p) :
    (∀ q, anyPath (toggleCheck (toggleCheck s p) p).sel q = anyPath s.sel q) ∧
    (anyPath s.sel p = false →
      anyPath (toggleCheck (toggleCheck s p) p).sel p = false ∧
      ∀ n ∈ (toggleCheck (toggleCheck s p) p).tree, n.path = p → n.checked = false) := by
  cases hf : findNode s.tree p with
  | none =>
    rw [toggleCheck_of_notfound s p hf, toggleCheck_of_notfound s p hf]
    refine ⟨fun q => rfl, fun h0 => ⟨h0, ?_⟩⟩
    intro n hn hp
    unfold findNode at hf
    have := List.find?_eq_none.mp hf n hn
    exact absurd (beq_iff_eq.mpr hp) this
  | some n =>
    have hchk : checkedOf s.tree p = n.checked := by
      unfold checkedOf
      rw [hf]
    by_cases hc : n.checked = true
    · -- first toggle unchecks and removes; second re-checks and re-adds
      have hsel : anyPath s.sel p = true := by
        rw [← h, hchk, hc]
      rw [toggleCheck_of_found s p n hf, if_pos hc]
      have hf2 : findNode (setChecked s.tree p false) p
          = some { n with checked := false } := by
        rw [findNode_setChecked, hf]
        rfl
      rw [toggleCheck_of_found ⟨setChecked s.tree p false, removeFirstPath s.sel p⟩ p
            { n with checked := false } hf2]
      rw [if_neg Bool.false_ne_true]
      dsimp only
      constructor
      · intro q
        by_cases hr : anyPath (removeFirstPath s.sel p) p = true
        · rw [addIfAbsent_of_present (removeFirstPath s.sel p) (p, n.isFolder) hr]
          by_cases hq : p = q
          · subst hq
            rw [hr, hsel]
          · exact anyPath_removeFirstPath_ne s.sel p q hq
        · rw [Bool.not_eq_true] at hr
          rw [addIfAbsent_of_absent (removeFirstPath s.sel p) (p, n.isFolder) hr]
          rw [anyPath_append, anyPath_cons]
          by_cases hq : p = q
          · subst hq
            simp [hsel]
          · have hpq : (p == q) = false := beq_eq_false_iff_ne.mpr hq
            simp only [hpq, anyPath, List.any_nil, Bool.false_or, Bool.or_false]
            exact anyPath_removeFirstPath_ne s.sel p q hq
      · intro h0
        rw [hsel] at h0
        exact absurd h0 (by simp)
    · -- first toggle checks and adds; second unchecks and removes it again
      rw [Bool.not_eq_true] at hc
      have hsel : anyPath s.sel p = false := by
        rw [← h, hchk, hc]
      rw [toggleCheck_of_found s p n hf, if_neg (by rw [hc]; exact Bool.false_ne_true)]
      rw [addIfAbsent_of_absent s.sel (p, n.isFolder) hsel]
      have hf2 : findNode (setChecked s.tree p true) p
          = some { n with checked := true } := by
        rw [findNode_setChecked, hf]
        rfl
      rw [toggleCheck_of_found
            ⟨setChecked s.tree p true, s.sel ++ [(p, n.isFolder)]⟩ p
            { n with checked := true } hf2]
      rw [if_pos rfl]
      dsimp only
      rw [removeFirstPath_append_absent s.sel p n.isFolder hsel]
      refine ⟨fun q => rfl, fun h0 => ⟨h0, ?_⟩⟩
      intro m hm hmp
      exact checked_of_mem_setChecked (setChecked s.tree p true) p false m hm hmp

/-- Witness for C9: a concrete single-node tree with an empty selection; the
round trip leaves the path unselected. -/
theorem c9_toggle_twice_membership_witness :
    anyPath (toggleCheck (toggleCheck ⟨[⟨"/r/a.txt", false, false⟩], []⟩ "/r/a.txt")
        "/r/a.txt").sel "/r/a.txt" = false :=
  ((c9_toggle_twice_membership ⟨[⟨"/r/a.txt", false, false⟩], []⟩ "/r/a.txt" rfl).2 rfl).1

/-! ### Single-flight pipeline (claim C5) -/

/-- The inductive invariant of the pipeline: the trigger is enabled exactly
when no request is outstanding, a deposited outcome implies an outstanding
request, and the issue count exceeds the drain count exactly while a
request is outstanding. -/
def PInv (s : PState) : Prop :=
  s.enabled = !s.issued ∧
  (s.deposited = true → s.issued = true) ∧
  s.issues = s.drains + (if s.issued then 1 else 0)

theorem pinv_init : PInv pinit := by
  refine ⟨rfl, ?_, rfl⟩
  intro h
  exact absurd h (by decide)

theorem pinv_step (s s' : PState) (e : PEv) (h : PInv s) (hs : pstep s e = some s') :
    PInv s' := by
  obtain ⟨h1, h2, h3⟩ := h
  cases e with
  | issueClick ne =>
    simp only [pstep] at hs
    by_cases he : s.enabled = true
    · rw [if_pos he] at hs
      cases ne with
      | true =>
        rw [if_pos rfl] at hs
        cases hs
        have hiss : s.issued = false := by
          cases hi : s.issued with
          | false => rfl
          | true => rw [hi] at h1; rw [h1] at he; exact absurd he (by decide)
        refine ⟨rfl, fun _ => rfl, ?_⟩
        simp only [if_pos rfl]
        rw [h3, hiss]
        simp
      | false =>
        rw [if_neg Bool.false_ne_true] at hs
        cases hs
        exact ⟨h1, h2, h3⟩
    · rw [if_neg he] at hs
      cases hs
  | deposit =>
    simp only [pstep] at hs
    by_cases hg : (s.issued && !s.deposited) = true
    · rw [if_pos hg] at hs
      cases hs
      have hi : s.issued = true := (Bool.and_eq_true _ _).mp hg |>.1
      refine ⟨by rw [h1], fun _ => hi, ?_⟩
      rw [h3]
    · rw [if_neg hg] at hs
      cases hs
  | poll =>
    simp only [pstep] at hs
    by_cases hi : s.issued = true
    · rw [if_pos hi] at hs
      by_cases hd : s.deposited = true
      · rw [if_pos hd] at hs
        cases hs
        refine ⟨rfl, fun hh => absurd hh Bool.false_ne_true, ?_⟩
        simp only [Bool.false_eq_true, if_false]
        rw [h3, hi]
        simp
      · rw [if_neg hd] at hs
        cases hs
        exact ⟨h1, h2, h3⟩
    · rw [if_neg hi] at hs
      cases hs

theorem pinv_reachable (s : PState) (h : PReachable s) : PInv s := by
  induction h with
  | init => exact pinv_init
  | step hr hs ih => exact pinv_step _ _ _ ih hs

/-- Claim C5: in every reachable pipeline state, an outstanding request keeps
the trigger disabled so that no second issue event is possible; issue and
drain counts differ by exactly the outstanding request, so exactly one
outcome is drained per issued request; and draining a deposited outcome
returns the pipeline to idle with the trigger re-enabled. -/
theorem c5_single_flight (s : PState) (h : PReachable s) :
    (s.issued = true → s.enabled = false ∧ ∀ b, pstep s (.issueClick b) = none) ∧
    s.issues = s.drains + (if s.issued then 1 else 0) ∧
    (∀ s', pstep s .poll = some s' → s.deposited = true →
      s'.issued = false ∧ s'.enabled = true ∧ s'.drains = s.drains + 1) := by
  obtain ⟨h1, h2, h3⟩ := pinv_reachable s h
  refine ⟨?_, h3, ?_⟩
  · intro hi
    have he : s.enabled = false := by rw [h1, hi]; rfl
    refine ⟨he, fun b => ?_⟩
    simp only [pstep]
    rw [if_neg (by rw [he]; exact Bool.false_ne_true)]
  · intro s' hs hd
    simp only [pstep] at hs
    by_cases hi : s.issued = true
    · rw [if_pos hi, if_pos hd] at hs
      cases hs
      exact ⟨rfl, rfl, rfl⟩
    · rw [if_neg hi] at hs
      cases hs

/-- Witness for C5: the state reached by issuing one request from the initial
state has the trigger disabled, so a second click produces no transition. -/
theorem c5_single_flight_witness :
    pstep ⟨true, false, false, 1, 0⟩ (.issueClick true) = none :=
  ((c5_single_flight ⟨true, false, false, 1, 0⟩
      (PReachable.step PReachable.init (rfl : pstep pinit (.issueClick true) = _))).1
    rfl).2 true

/-! ### Response extraction and failure classification (claim C6) -/

/-- Claim C6 counterexample: on text holding two brace groups, the code's
greedy extraction spans from the first opening brace to the last closing
brace, which differs from the first balanced brace substring the claim
describes. -/
theorem c6_extraction_counterexample :
    selectPayload "ab{p}cd{q}e" = some "{p}cd{q}" ∧
    firstBalancedSub "ab{p}cd{q}e" = some "{p}" ∧
    ("{p}cd{q}" : String) ≠ "{p}" := by
  refine ⟨by decide, by decide, by decide⟩

/-- Claim C6 (amended): network errors and non-200 statuses end the request
in a parse-independent failure whose message embeds the status code and, when
present, the service's own error message; when the stripped content does not
begin with a brace and the greedy first-to-last brace extraction finds
nothing, the request fails as a parse failure; and the extraction, when it
succeeds, returns the substring from the first opening brace to the last
closing brace (not the first balanced one). -/
theorem c6_failure_modes :
    (∀ jparse m, runAiRequest jparse (.netError m) = .error m) ∧
    (∀ jparse status errInfo content, status ≠ 200 →
      runAiRequest jparse (.httpResponse status errInfo content)
        = .error (apiErrorMessage status errInfo)) ∧
    (∀ status errInfo, ∃ a b, (apiErrorMessage status errInfo).data
        = a ++ ((toString status).data ++ b)) ∧
    (∀ status m, ∃ a, (apiErrorMessage status (some (some m))).data = a ++ m.data) ∧
    (∀ jparse errInfo content, headIs '{' (pyStrip content) = false →
      extractJson content = none →
      runAiRequest jparse (.httpResponse 200 errInfo content)
        = .error "AI response did not contain a valid JSON object.") ∧
    (∀ text i j, firstIdxOf '{' text.toList = some i →
      lastIdxOf '}' text.toList = some j → i < j →
      extractJson text = some (String.mk ((text.toList.drop i).take (j - i + 1)))) := by
  refine ⟨fun jparse m => rfl, ?_, ?_, ?_, ?_, ?_⟩
  · intro jparse status errInfo content h
    simp only [runAiRequest]
    rw [if_pos h]
  · intro status errInfo
    cases errInfo with
    | none =>
      exact ⟨"API Error: Status ".data, ("" : String).data,
        by simp [apiErrorMessage, String.data_append, List.append_assoc]⟩
    | some em =>
      cases em with
      | none =>
        exact ⟨"API Error: Status ".data, ("\n" ++ "Unknown error").data,
          by simp [apiErrorMessage, String.data_append, List.append_assoc]⟩
      | some m =>
        exact ⟨"API Error: Status ".data, ("\n" ++ m).data,
          by simp [apiErrorMessage, String.data_append, List.append_assoc]⟩
  · intro status m
    exact ⟨("API Error: Status " ++ toString status ++ "\n").data,
      by simp [apiErrorMessage, String.data_append, List.append_assoc]⟩
  · intro jparse errInfo content h1 h2
    simp [runAiRequest, selectPayload, h1, h2]
  · intro text i j h1 h2 h3
    simp only [extractJson]
    rw [h1, h2]
    exact if_pos h3

/-- Witness for C6 (amended): a 404 with a service message fails with the
composed message, and a brace-free 200 body fails as a parse failure. -/
theorem c6_failure_modes_witness :
    runAiRequest (fun _ => .error "boom")
        (.httpResponse 404 (some (some "Rate limited")) "x")
      = .error (apiErrorMessage 404 (some (some "Rate limited"))) ∧
    runAiRequest (fun _ => .error "boom") (.httpResponse 200 none "no json here")
      = .error "AI response did not contain a valid JSON object." :=
  ⟨c6_failure_modes.2.1 (fun _ => .error "boom") 404 (some (some "Rate limited")) "x"
      (by decide),
   c6_failure_modes.2.2.2.2.1 (fun _ => .error "boom") none "no json here"
      (by decide) (by decide)⟩

/-! ### Failed requests leave the selection untouched (claim C7) -/

/-- Claim C7: when the drained outcome is an error, the error is surfaced in a
popup and the whole session state — in particular the selection set — is
exactly what it was before. -/
theorem c7_failed_leaves_selection (s : AppState) (e : String) :
    (checkAiOutcome s (.error e)).1 = s ∧
    (checkAiOutcome s (.error e)).1.sel = s.sel ∧
    (checkAiOutcome s (.error e)).2 = some ("Failed to get AI suggestions: " ++ e) :=
  ⟨rfl, rfl, rfl⟩

/-! ### Success merge clears the whole selection (claim C1) -/

/-- Claim C1 counterexample: with selection `{a.txt, b.txt}` and response
`{"a.txt": "a2.txt"}`, the table does get exactly one row, but the pipeline
clears the whole selection — `b.txt` is not retained. -/
theorem c1_clear_counterexample :
    (checkAiOutcome ⟨[], [("/r/a.txt", false), ("/r/b.txt", false)], [], []⟩
        (.ok [("a.txt", "a2.txt")])).1.table = [⟨"a.txt", "a2.txt", "File"⟩] ∧
    (checkAiOutcome ⟨[], [("/r/a.txt", false), ("/r/b.txt", false)], [], []⟩
        (.ok [("a.txt", "a2.txt")])).1.sel = [] ∧
    anyPath (checkAiOutcome ⟨[], [("/r/a.txt", false), ("/r/b.txt", false)], [], []⟩
        (.ok [("a.txt", "a2.txt")])).1.sel "/r/b.txt" = false := by
  refine ⟨by decide, by decide, by decide⟩

theorem processRow_of_none (result : List (String × String)) (acc : AppState)
    (e : String × Bool) (h : lookupKey result (basename e.1) = none) :
    processRow result acc e = acc := by
  unfold processRow
  dsimp only
  rw [h]

theorem processRow_of_some (result : List (String × String)) (acc : AppState)
    (e : String × Bool) (v : String) (h : lookupKey result (basename e.1) = some v) :
    processRow result acc e
      = { acc with sugg := upsertKey acc.sugg (basename e.1) v,
                   table := eraseFirstRowKey acc.table (basename e.1)
                     ++ [⟨basename e.1, v, if e.2 then "Folder" else "File"⟩] } := by
  unfold processRow
  dsimp only
  rw [h]

theorem eraseFirstRowKey_cons (x : Row) (rest : List Row) (k : String) :
    eraseFirstRowKey (x :: rest) k
      = if x.orig == k then rest else x :: eraseFirstRowKey rest k := rfl

theorem mem_eraseFirstRowKey_of_ne (t : List Row) (k : String) (r : Row)
    (h : r ∈ t) (hne : r.orig ≠ k) : r ∈ eraseFirstRowKey t k := by
  induction t with
  | nil => cases h
  | cons x rest ih =>
    rw [eraseFirstRowKey_cons]
    rcases List.mem_cons.mp h with rfl | hmem
    · rw [if_neg (by rw [beq_eq_false_iff_ne.mpr hne]; exact Bool.false_ne_true)]
      exact List.mem_cons_self r (eraseFirstRowKey rest k)
    · by_cases hb : (x.orig == k) = true
      · rw [if_pos hb]
        exact hmem
      · rw [if_neg hb]
        exact List.mem_cons_of_mem x (ih hmem)

theorem row_mem_processRow (result : List (String × String)) (acc : AppState)
    (e' : String × Bool) (orig v : String) (hv : lookupKey result orig = some v)
    (h : ∃ k, (⟨orig, v, k⟩ : Row) ∈ acc.table) :
    ∃ k, (⟨orig, v, k⟩ : Row) ∈ (processRow result acc e').table := by
  cases hl : lookupKey result (basename e'.1) with
  | none =>
    rw [processRow_of_none result acc e' hl]
    exact h
  | some v' =>
    rw [processRow_of_some result acc e' v' hl]
    obtain ⟨k, hk⟩ := h
    by_cases ho : basename e'.1 = orig
    · subst ho
      rw [hv] at hl
      injection hl with hv'
      subst hv'
      exact ⟨if e'.2 then "Folder" else "File",
        List.mem_append_right _ (List.mem_singleton.mpr rfl)⟩
    · exact ⟨k, List.mem_append_left _
        (mem_eraseFirstRowKey_of_ne acc.table (basename e'.1) ⟨orig, v, k⟩ hk
          (fun hh => ho hh.symm))⟩

theorem row_mem_foldl_processRow (result : List (String × String))
    (sel : List (String × Bool)) (acc : AppState) (orig v : String)
    (hv : lookupKey result orig = some v)
    (h : ∃ k, (⟨orig, v, k⟩ : Row) ∈ acc.table) :
    ∃ k, (⟨orig, v, k⟩ : Row) ∈ (sel.foldl (processRow result) acc).table := by
  induction sel generalizing acc with
  | nil => exact h
  | cons x rest ih =>
    rw [List.foldl_cons]
    exact ih (processRow result acc x) (row_mem_processRow result acc x orig v hv h)

theorem row_mem_foldl_of_mem (result : List (String × String))
    (sel : List (String × Bool)) (acc : AppState) (e : String × Bool)
    (he : e ∈ sel) (v : String) (hv : lookupKey result (basename e.1) = some v) :
    ∃ k, (⟨basename e.1, v, k⟩ : Row) ∈ (sel.foldl (processRow result) acc).table := by
  induction sel generalizing acc with
  | nil => cases he
  | cons x rest ih =>
    rw [List.foldl_cons]
    rcases List.mem_cons.mp he with rfl | hmem
    · refine row_mem_foldl_processRow result rest (processRow result acc e)
        (basename e.1) v hv ?_
      rw [processRow_of_some result acc e v hv]
      exact ⟨if e.2 then "Folder" else "File",
        List.mem_append_right _ (List.mem_singleton.mpr rfl)⟩
    · exact ih (processRow result acc x) hmem

/-- Claim C1 (amended): on a successful outcome, a suggestion row is upserted
for every selection entry whose basename is a key of the returned mapping, and
then the selection set is cleared entirely — resolved and unresolved entries
alike are all removed. -/
theorem c1_success_merge (s : AppState) (result : List (String × String)) :
    (processSuccessR s result).sel = [] ∧
    ∀ e ∈ s.sel, ∀ v, lookupKey result (basename e.1) = some v →
      ∃ k, (⟨basename e.1, v, k⟩ : Row) ∈ (processSuccessR s result).table := by
  refine ⟨rfl, ?_⟩
  intro e he v hv
  exact row_mem_foldl_of_mem result s.sel s e he v hv

/-- Witness for C1 (amended): the single resolved entry produces its row. -/
theorem c1_success_merge_witness :
    ∃ k, (⟨"a.txt", "a2.txt", k⟩ : Row) ∈
      (processSuccessR ⟨[], [("/r/a.txt", false)], [], []⟩ [("a.txt", "a2.txt")]).table :=
  (c1_success_merge ⟨[], [("/r/a.txt", false)], [], []⟩ [("a.txt", "a2.txt")]).2
    ("/r/a.txt", false) (List.mem_singleton.mpr rfl) "a2.txt" rfl

/-! ### Reject flow (claim C2) -/

theorem rejectRow_eq (s : AppState) (r : Row) :
    rejectRow s r
      = if containsKey s.sugg r.orig then
          { s with table := eraseFirstEq s.table r, sugg := removeKey s.sugg r.orig }
        else s := by
  unfold rejectRow
  by_cases hk : containsKey s.sugg r.orig = true
  · rw [if_pos hk, if_pos hk]
    dsimp only
    cases hf : s.sel.find? (fun e => basename e.1 == r.orig) with
    | none => rfl
    | some e =>
      have hmem : e ∈ s.sel := List.mem_of_find?_eq_some hf
      have hany : anyPath s.sel e.1 = true := by
        unfold anyPath
        exact List.any_eq_true.mpr ⟨e, hmem, beq_iff_eq.mpr rfl⟩
      dsimp only
      rw [if_pos hany]
  · rw [if_neg hk, if_neg hk]

theorem rejectRow_sel (s : AppState) (r : Row) : (rejectRow s r).sel = s.sel := by
  rw [rejectRow_eq]
  split <;> rfl

theorem rejectRow_tree (s : AppState) (r : Row) : (rejectRow s r).tree = s.tree := by
  rw [rejectRow_eq]
  split <;> rfl

theorem rejectRows_sel_tree (s : AppState) (rows : List Row) :
    (rejectRows s rows).sel = s.sel ∧ (rejectRows s rows).tree = s.tree := by
  unfold rejectRows
  induction rows generalizing s with
  | nil => exact ⟨rfl, rfl⟩
  | cons r rest ih =>
    rw [List.foldl_cons]
    obtain ⟨h1, h2⟩ := ih (rejectRow s r)
    exact ⟨by rw [h1, rejectRow_sel], by rw [h2, rejectRow_tree]⟩

/-- Claim C2 counterexample: a row whose original path is still tracked as a
materialized (unchecked) tree entry, in the state the normal pipeline leaves
behind (selection already cleared).  Rejecting the row deletes it but adds no
selection entry back and marks no checkbox: the re-add searches the
already-cleared selection list itself. -/
theorem c2_reject_counterexample :
    (rejectRows ⟨[⟨"/r/a.txt", false, false⟩], [],
        [⟨"a.txt", "a2.txt", "File"⟩], [("a.txt", "a2.txt")]⟩
        [⟨"a.txt", "a2.txt", "File"⟩]).sel = [] ∧
    checkedOf (rejectRows ⟨[⟨"/r/a.txt", false, false⟩], [],
        [⟨"a.txt", "a2.txt", "File"⟩], [("a.txt", "a2.txt")]⟩
        [⟨"a.txt", "a2.txt", "File"⟩]).tree "/r/a.txt" = false ∧
    (rejectRows ⟨[⟨"/r/a.txt", false, false⟩], [],
        [⟨"a.txt", "a2.txt", "File"⟩], [("a.txt", "a2.txt")]⟩
        [⟨"a.txt", "a2.txt", "File"⟩]).table = [] ∧
    basename "/r/a.txt" = "a.txt" := by
  refine ⟨by decide, by decide, by decide, by decide⟩

/-- Claim C2 (amended): rejecting rows deletes each row whose original name
has a suggestion entry, together with that entry, and leaves the selection
set and the tree checkboxes entirely unchanged — the re-add branch searches
the selection list itself, so a path it can find is already present and
nothing is ever re-added or re-marked. -/
theorem c2_reject_behavior (s : AppState) (rows : List Row) :
    (rejectRows s rows).sel = s.sel ∧
    (rejectRows s rows).tree = s.tree ∧
    (∀ r : Row, containsKey s.sugg r.orig = true →
      rejectRow s r = { s with table := eraseFirstEq s.table r,
                               sugg := removeKey s.sugg r.orig }) ∧
    (∀ r : Row, containsKey s.sugg r.orig = false → rejectRow s r = s) := by
  refine ⟨(rejectRows_sel_tree s rows).1, (rejectRows_sel_tree s rows).2, ?_, ?_⟩
  · intro r hk
    rw [rejectRow_eq, if_pos hk]
  · intro r hk
    rw [rejectRow_eq, if_neg (by rw [hk]; exact Bool.false_ne_true)]

/-- Witness for C2 (amended): a rejected row with a suggestion entry is
removed from the table and the suggestion map. -/
theorem c2_reject_behavior_witness :
    rejectRow ⟨[], [], [⟨"a.txt", "a2.txt", "File"⟩], [("a.txt", "a2.txt")]⟩
        ⟨"a.txt", "a2.txt", "File"⟩
      = ⟨[], [], [], []⟩ := by
  rw [(c2_reject_behavior ⟨[], [], [⟨"a.txt", "a2.txt", "File"⟩], [("a.txt", "a2.txt")]⟩
      []).2.2.1 ⟨"a.txt", "a2.txt", "File"⟩ rfl]
  rfl

/-! ### Rename applier (claims C3, C8, C10) -/

theorem applyRow_of_equal (fs : String → String → Option String) (acc : ApplyAcc)
    (r : Row) (h : r.orig = r.sugg) : applyRow fs acc r = acc := by
  unfold applyRow
  rw [if_pos (beq_iff_eq.mpr h)]

theorem applyRow_of_unresolved (fs : String → String → Option String) (acc : ApplyAcc)
    (r : Row) (h : acc.sel.find? (fun e => basename e.1 == r.orig) = none) :
    applyRow fs acc r = acc := by
  unfold applyRow
  by_cases hq : (r.orig == r.sugg) = true
  · rw [if_pos hq]
  · rw [if_neg hq]
    dsimp only
    rw [h]

theorem applyRow_calls (fs : String → String → Option String) (acc : ApplyAcc)
    (r : Row) :
    (applyRow fs acc r).calls = acc.calls ∨
    ∃ e, acc.sel.find? (fun x => basename x.1 == r.orig) = some e ∧
      (applyRow fs acc r).calls = acc.calls ++ [(e.1, joinPath (dirname e.1) r.sugg)] := by
  unfold applyRow
  by_cases hq : (r.orig == r.sugg) = true
  · rw [if_pos hq]
    exact Or.inl rfl
  · rw [if_neg hq]
    dsimp only
    cases hf : acc.sel.find? (fun x => basename x.1 == r.orig) with
    | none => exact Or.inl rfl
    | some e =>
      dsimp only
      cases hfs : fs e.1 (joinPath (dirname e.1) r.sugg) with
      | none => exact Or.inr ⟨e, rfl, rfl⟩
      | some err => exact Or.inr ⟨e, rfl, rfl⟩

/-- Claim C3: a row whose suggested name equals its original is skipped with
no filesystem call and no count; every filesystem call renames a resolved
original path to the sibling path with the new basename; and rows are
attempted independently — in the three-row batch with the second rename
failing, the other two succeed and the summary reports two renamed, one
failed. -/
theorem c3_apply_independent :
    (∀ (fs : String → String → Option String) (acc : ApplyAcc) (r : Row),
      r.orig = r.sugg → applyRow fs acc r = acc) ∧
    (∀ (fs : String → String → Option String) (acc : ApplyAcc) (r : Row),
      (applyRow fs acc r).calls = acc.calls ∨
      ∃ e, acc.sel.find? (fun x => basename x.1 == r.orig) = some e ∧
        (applyRow fs acc r).calls = acc.calls ++ [(e.1, joinPath (dirname e.1) r.sugg)]) ∧
    ((applyRenames
        (fun p _ => if p == "/r/b.txt" then some "Destination exists" else none)
        [("/r/a.txt", false), ("/r/b.txt", false), ("/r/c.txt", false)]
        [⟨"a.txt", "a2.txt", "File"⟩, ⟨"b.txt", "b2.txt", "File"⟩,
         ⟨"c.txt", "c2.txt", "File"⟩]).1.renamed = 2 ∧
     (applyRenames
        (fun p _ => if p == "/r/b.txt" then some "Destination exists" else none)
        [("/r/a.txt", false), ("/r/b.txt", false), ("/r/c.txt", false)]
        [⟨"a.txt", "a2.txt", "File"⟩, ⟨"b.txt", "b2.txt", "File"⟩,
         ⟨"c.txt", "c2.txt", "File"⟩]).1.failed = 1 ∧
     (applyRenames
        (fun p _ => if p == "/r/b.txt" then some "Destination exists" else none)
        [("/r/a.txt", false), ("/r/b.txt", false), ("/r/c.txt", false)]
        [⟨"a.txt", "a2.txt", "File"⟩, ⟨"b.txt", "b2.txt", "File"⟩,
         ⟨"c.txt", "c2.txt", "File"⟩]).2 = some (.success 2 1)) :=
  ⟨applyRow_of_equal, applyRow_calls, by decide, by decide, by decide⟩

/-- Witness for C3: a row whose names are equal leaves the accumulator
untouched. -/
theorem c3_apply_independent_witness :
    applyRow (fun _ _ => none) ⟨[("/r/a.txt", false)], 0, 0, [], []⟩
        ⟨"a.txt", "a.txt", "File"⟩
      = ⟨[("/r/a.txt", false)], 0, 0, [], []⟩ :=
  c3_apply_independent.1 (fun _ _ => none)
    ⟨[("/r/a.txt", false)], 0, 0, [], []⟩ ⟨"a.txt", "a.txt", "File"⟩ rfl

theorem applyRow_popups_eq_failed (fs : String → String → Option String)
    (acc : ApplyAcc) (r : Row) (h : acc.popups.length = acc.failed) :
    (applyRow fs acc r).popups.length = (applyRow fs acc r).failed := by
  unfold applyRow
  by_cases hq : (r.orig == r.sugg) = true
  · rw [if_pos hq]
    exact h
  · rw [if_neg hq]
    dsimp only
    cases hf : acc.sel.find? (fun e => basename e.1 == r.orig) with
    | none => exact h
    | some e =>
      dsimp only
      cases hfs : fs e.1 (joinPath (dirname e.1) r.sugg) with
      | none => exact h
      | some err =>
        dsimp only
        rw [List.length_append, h]
        rfl

theorem foldl_popups_eq_failed (fs : String → String → Option String)
    (rows : List Row) (acc : ApplyAcc) (h : acc.popups.length = acc.failed) :
    (rows.foldl (applyRow fs) acc).popups.length
      = (rows.foldl (applyRow fs) acc).failed := by
  induction rows generalizing acc with
  | nil => exact h
  | cons r rest ih =>
    rw [List.foldl_cons]
    exact ih (applyRow fs acc r) (applyRow_popups_eq_failed fs acc r h)

/-- Claim C8 counterexample: a one-row batch whose rename fails shows an
individual error popup during the loop and produces no end-of-batch summary
at all. -/
theorem c8_individual_popup_counterexample :
    (applyRenames (fun _ _ => some "exists") [("/r/a.txt", false)]
        [⟨"a.txt", "b.txt", "File"⟩]).1.popups
      = ["Failed to rename a.txt: exists"] ∧
    (applyRenames (fun _ _ => some "exists") [("/r/a.txt", false)]
        [⟨"a.txt", "b.txt", "File"⟩]).2 = none := by
  refine ⟨by decide, by decide⟩

/-- Claim C8 (amended): each failed rename shows its own popup as it happens
(one popup per failed row); the end-of-batch summary with both counts appears
only when at least one rename succeeded; zero renames with zero failures is
reported distinctly as the nothing-to-do outcome; and zero renames with at
least one failure produces no end-of-batch summary at all. -/
theorem c8_report_behavior (fs : String → String → Option String)
    (sel : List (String × Bool)) (rows : List Row) (h : rows ≠ []) :
    (applyRenames fs sel rows).1.popups.length = (applyRenames fs sel rows).1.failed ∧
    ((applyRenames fs sel rows).1.renamed > 0 →
      (applyRenames fs sel rows).2
        = some (.success (applyRenames fs sel rows).1.renamed
            (applyRenames fs sel rows).1.failed)) ∧
    ((applyRenames fs sel rows).1.renamed = 0 → (applyRenames fs sel rows).1.failed = 0 →
      (applyRenames fs sel rows).2 = some .nothingToDo) ∧
    ((applyRenames fs sel rows).1.renamed = 0 → (applyRenames fs sel rows).1.failed ≠ 0 →
      (applyRenames fs sel rows).2 = none) := by
  have hne : rows.isEmpty = false := List.isEmpty_eq_false.mpr h
  unfold applyRenames
  rw [if_neg (by rw [hne]; exact Bool.false_ne_true)]
  dsimp only
  refine ⟨foldl_popups_eq_failed fs rows ⟨sel, 0, 0, [], []⟩ rfl, ?_, ?_, ?_⟩
  · intro hr
    rw [if_pos hr]
  · intro hr hf
    rw [if_neg (by rw [hr]; exact lt_irrefl 0), if_pos (by rw [hf]; rfl)]
  · intro hr hf
    rw [if_neg (by rw [hr]; exact lt_irrefl 0),
        if_neg (by rw [Bool.not_eq_true, beq_eq_false_iff_ne]; exact hf)]

/-- Witness for C8 (amended): a batch with one successful rename reports the
success summary with its counts. -/
theorem c8_report_behavior_witness :
    (applyRenames (fun _ _ => none) [("/r/a.txt", false)]
        [⟨"a.txt", "a2.txt", "File"⟩]).2 = some (.success 1 0) := by
  rw [(c8_report_behavior (fun _ _ => none) [("/r/a.txt", false)]
      [⟨"a.txt", "a2.txt", "File"⟩] (by decide)).2.1 (by decide)]
  rfl

theorem foldl_applyRow_unresolved (fs : String → String → Option String)
    (rows : List Row) (acc : ApplyAcc)
    (h : ∀ r ∈ rows, ∀ e ∈ acc.sel, basename e.1 ≠ r.orig) :
    rows.foldl (applyRow fs) acc = acc := by
  induction rows with
  | nil => rfl
  | cons r rest ih =>
    rw [List.foldl_cons]
    have hskip : applyRow fs acc r = acc :=
      applyRow_of_unresolved fs acc r
        (List.find?_eq_none.mpr
          (fun e he hbeq => h r (List.mem_cons_self r rest) e he (beq_iff_eq.mp hbeq)))
    rw [hskip]
    exact ih (fun r' hr' e he => h r' (List.mem_cons_of_mem r hr') e he)

/-- Claim C10: a selected row whose original basename matches no current
selection entry is skipped silently — no filesystem call, no renamed count,
no failed count — and a nonempty batch consisting only of such rows ends in
the nothing-to-do report. -/
theorem c10_unmatched_rows_skipped (fs : String → String → Option String)
    (sel : List (String × Bool)) (rows : List Row) (h1 : rows ≠ [])
    (h2 : ∀ r ∈ rows, ∀ e ∈ sel, basename e.1 ≠ r.orig) :
    (applyRenames fs sel rows).1 = ⟨sel, 0, 0, [], []⟩ ∧
    (applyRenames fs sel rows).2 = some .nothingToDo ∧
    (∀ (fs2 : String → String → Option String) (acc : ApplyAcc) (r : Row),
      acc.sel.find? (fun e => basename e.1 == r.orig) = none →
      applyRow fs2 acc r = acc) := by
  have hne : rows.isEmpty = false := List.isEmpty_eq_false.mpr h1
  have hfold : rows.foldl (applyRow fs) ⟨sel, 0, 0, [], []⟩ = ⟨sel, 0, 0, [], []⟩ :=
    foldl_applyRow_unresolved fs rows ⟨sel, 0, 0, [], []⟩ h2
  unfold applyRenames
  rw [if_neg (by rw [hne]; exact Bool.false_ne_true)]
  dsimp only
  rw [hfold]
  exact ⟨rfl, rfl, applyRow_of_unresolved⟩

/-- Witness for C10: a row whose basename is tracked nowhere yields the
nothing-to-do report even though a row was selected. -/
theorem c10_unmatched_rows_skipped_witness :
    (applyRenames (fun _ _ => none) [("/r/x.txt", false)]
        [⟨"y.txt", "z.txt", "File"⟩]).2 = some .nothingToDo :=
  (c10_unmatched_rows_skipped (fun _ _ => none) [("/r/x.txt", false)]
    [⟨"y.txt", "z.txt", "File"⟩] (by decide) (by decide)).2.1

end NickelRenamer
